import Mathlib

/-!
Verification of the ResidBenchmarks residual kernel (src/resid.cpp).

The repository is a single C++ translation unit exposing, via Rcpp, two
entry points over Eigen matrices:

  qr_dense_residop  (src/resid.cpp lines 14-17):
    const HouseholderQR of X, then return Y - X * QR.solve(Y)
  qr_sparse_residop (src/resid.cpp lines 20-23):
    const SparseQR of X with COLAMDOrdering, then return Y - X * QR.solve(Y)

We embed the kernel in exact arithmetic over the rationals.  Matrices are
Mathlib matrices indexed by Fin; the sparse compressed-column storage is
modelled by the matrix it represents.  The library call QR.solve(Y) is
embedded by its exact-arithmetic mathematical value: for a QR
factorization X = Q U (full Householder QR, as Eigen performs for the
dense variant), solve returns the least-squares coefficient matrix,
whose closed form in terms of the normal matrix A = Xt * X is the
inverse of A.det smul (A.adjugate * (Xt * Y)).  This closed form is used
so that the definitions stay computable; when A is invertible it equals
the triangular-solve value (U inverse) * Qt * Y produced by the source.
The sparse variant factors a column-permuted copy of X and permutes the
coefficients back; the permutation chosen by the COLAMD heuristic enters
the embedding as an explicit parameter.
-/

namespace Resid

open Matrix

/-- Exact-arithmetic semantics of the Eigen call QR.solve(Y) for the
Householder QR object built from X in src/resid.cpp line 15: the
least-squares coefficient matrix, written with the adjugate of the
normal matrix so that the definition is computable. -/
def qrSolve {n p k : ℕ} (X : Matrix (Fin n) (Fin p) ℚ)
    (Y : Matrix (Fin n) (Fin k) ℚ) : Matrix (Fin p) (Fin k) ℚ :=
  ((Xᵀ * X).det)⁻¹ • ((Xᵀ * X).adjugate * (Xᵀ * Y))

/-- Embedding of qr_dense_residop (src/resid.cpp lines 14-17): build the
Householder QR of X and return Y - (X * QR.solve(Y)). -/
def qr_dense_residop {n p k : ℕ} (X : Matrix (Fin n) (Fin p) ℚ)
    (Y : Matrix (Fin n) (Fin k) ℚ) : Matrix (Fin n) (Fin k) ℚ :=
  Y - X * qrSolve X Y

/-- Exact-arithmetic semantics of QR.solve(Y) for the SparseQR object of
src/resid.cpp line 21: the ordering policy permutes the columns of X by
a permutation sigma before factoring (Eigen applies the permutation and
inverts it inside solve), so the coefficients of the permuted system are
permuted back to the original column order. -/
def spqrSolve {n p k : ℕ} (sigma : Equiv.Perm (Fin p))
    (X : Matrix (Fin n) (Fin p) ℚ) (Y : Matrix (Fin n) (Fin k) ℚ) :
    Matrix (Fin p) (Fin k) ℚ :=
  (qrSolve (X.submatrix id sigma) Y).submatrix sigma.symm id

/-- Embedding of qr_sparse_residop (src/resid.cpp lines 20-23): build the
sparse QR of X under the ordering permutation sigma chosen by the COLAMD
heuristic and return Y - (X * QR.solve(Y)); the compressed-column inputs
are modelled by the matrices they represent. -/
def qr_sparse_residop {n p k : ℕ} (sigma : Equiv.Perm (Fin p))
    (X : Matrix (Fin n) (Fin p) ℚ) (Y : Matrix (Fin n) (Fin k) ℚ) :
    Matrix (Fin n) (Fin k) ℚ :=
  Y - X * spqrSolve sigma X Y

/-- Sum of entrywise products of two equally shaped matrices. -/
def dotF {a b : ℕ} (M N : Matrix (Fin a) (Fin b) ℚ) : ℚ :=
  ∑ i, ∑ j, M i j * N i j

/-- Squared Frobenius norm, the squared 2-norm the least-squares
objective minimizes columnwise. -/
def frobSq {a b : ℕ} (M : Matrix (Fin a) (Fin b) ℚ) : ℚ :=
  ∑ i, ∑ j, (M i j) ^ 2

/-- Full column rank of X, expressed as invertibility of the normal
matrix Xt * X, which over the rationals is equivalent to the columns of
X being linearly independent. -/
def FullColRank {n p : ℕ} (X : Matrix (Fin n) (Fin p) ℚ) : Prop :=
  IsUnit ((Xᵀ * X).det)

/-- The functions exported to the host environment by src/resid.cpp: the
two symbols carrying an Rcpp export attribute. -/
def entryPoints : List String :=
  ["qr_dense_residop", "qr_sparse_residop"]

/-- The ordering policies instantiated for the SparseQR template in
src/resid.cpp line 21: only COLAMDOrdering appears. -/
def sparseOrderings : List String :=
  ["COLAMDOrdering"]

/-- Concrete design matrix of the spec scenario: 3 by 1, all ones. -/
def Xone : Matrix (Fin 3) (Fin 1) ℚ := fun _ _ => 1

/-- Concrete response of the spec scenario: the column (1, 2, 3). -/
def Yone : Matrix (Fin 3) (Fin 1) ℚ := fun i _ => (i : ℚ) + 1

/-- Expected residual of the spec scenario: the column (-1, 0, 1). -/
def Rone : Matrix (Fin 3) (Fin 1) ℚ := fun i _ => (i : ℚ) - 1

/-- The solve step satisfies the normal equations: multiplying the
coefficient matrix by Xt * X recovers Xt * Y whenever X has full column
rank. -/
lemma normal_mul_qrSolve {n p k : ℕ} (X : Matrix (Fin n) (Fin p) ℚ)
    (Y : Matrix (Fin n) (Fin k) ℚ) (h : FullColRank X) :
    (Xᵀ * X) * qrSolve X Y = Xᵀ * Y := by
  have hd : ((Xᵀ * X).det : ℚ) ≠ 0 := h.ne_zero
  unfold qrSolve
  rw [Matrix.mul_smul, ← Matrix.mul_assoc, Matrix.mul_adjugate, Matrix.smul_mul,
    Matrix.one_mul, smul_smul, inv_mul_cancel₀ hd, one_smul]

/-- The dense residual is orthogonal to the column space of X. -/
lemma transpose_mul_dense_resid {n p k : ℕ} (X : Matrix (Fin n) (Fin p) ℚ)
    (Y : Matrix (Fin n) (Fin k) ℚ) (h : FullColRank X) :
    Xᵀ * qr_dense_residop X Y = 0 := by
  unfold qr_dense_residop
  rw [Matrix.mul_sub, ← Matrix.mul_assoc, normal_mul_qrSolve X Y h, sub_self]

/-- The solve step returns zero coefficients on a response already
orthogonal to the column space of X. -/
lemma qrSolve_eq_zero_of_orth {n p k : ℕ} (X : Matrix (Fin n) (Fin p) ℚ)
    (R : Matrix (Fin n) (Fin k) ℚ) (h0 : Xᵀ * R = 0) : qrSolve X R = 0 := by
  unfold qrSolve
  rw [h0, Matrix.mul_zero, smul_zero]

/-- Re-running the dense kernel on its own residual returns the residual
unchanged. -/
lemma dense_resid_idem {n p k : ℕ} (X : Matrix (Fin n) (Fin p) ℚ)
    (Y : Matrix (Fin n) (Fin k) ℚ) (h : FullColRank X) :
    qr_dense_residop X (qr_dense_residop X Y) = qr_dense_residop X Y := by
  have h0 : qrSolve X (qr_dense_residop X Y) = 0 :=
    qrSolve_eq_zero_of_orth X _ (transpose_mul_dense_resid X Y h)
  show qr_dense_residop X Y - X * qrSolve X (qr_dense_residop X Y) =
    qr_dense_residop X Y
  rw [h0, Matrix.mul_zero, sub_zero]

/-- The entrywise product sum is the trace of the transposed product. -/
lemma dotF_eq_trace {a b : ℕ} (M N : Matrix (Fin a) (Fin b) ℚ) :
    dotF M N = Matrix.trace (Mᵀ * N) := by
  unfold dotF
  simp [Matrix.trace, Matrix.diag, Matrix.mul_apply]
  exact Finset.sum_comm

/-- The entrywise product sum is symmetric. -/
lemma dotF_comm {a b : ℕ} (M N : Matrix (Fin a) (Fin b) ℚ) :
    dotF M N = dotF N M := by
  unfold dotF
  apply Finset.sum_congr rfl
  intro i _
  apply Finset.sum_congr rfl
  intro j _
  ring

/-- The entrywise product sum against the zero matrix vanishes. -/
lemma dotF_zero_right {a b : ℕ} (M : Matrix (Fin a) (Fin b) ℚ) :
    dotF M 0 = 0 := by
  simp [dotF]

/-- Adjoint identity moving a left factor across the entrywise product
sum. -/
lemma dotF_mul_left {n p k : ℕ} (X : Matrix (Fin n) (Fin p) ℚ)
    (C : Matrix (Fin p) (Fin k) ℚ) (R : Matrix (Fin n) (Fin k) ℚ) :
    dotF (X * C) R = dotF C (Xᵀ * R) := by
  rw [dotF_eq_trace, dotF_eq_trace, Matrix.transpose_mul, Matrix.mul_assoc]

/-- The squared Frobenius norm is nonnegative. -/
lemma frobSq_nonneg {a b : ℕ} (M : Matrix (Fin a) (Fin b) ℚ) : 0 ≤ frobSq M :=
  Finset.sum_nonneg fun _ _ => Finset.sum_nonneg fun _ _ => sq_nonneg _

/-- Binomial expansion of the squared Frobenius norm of a sum. -/
lemma frobSq_add {a b : ℕ} (M N : Matrix (Fin a) (Fin b) ℚ) :
    frobSq (M + N) = frobSq M + 2 * dotF M N + frobSq N := by
  unfold frobSq dotF
  rw [Finset.mul_sum, ← Finset.sum_add_distrib, ← Finset.sum_add_distrib]
  apply Finset.sum_congr rfl
  intro i _
  rw [Finset.mul_sum, ← Finset.sum_add_distrib, ← Finset.sum_add_distrib]
  apply Finset.sum_congr rfl
  intro j _
  simp only [Matrix.add_apply]
  ring

/-- The residual computed by the dense kernel minimizes the squared
Frobenius norm of Y - X * B over all coefficient matrices B. -/
lemma dense_resid_min {n p k : ℕ} (X : Matrix (Fin n) (Fin p) ℚ)
    (Y : Matrix (Fin n) (Fin k) ℚ) (h : FullColRank X)
    (B : Matrix (Fin p) (Fin k) ℚ) :
    frobSq (qr_dense_residop X Y) ≤ frobSq (Y - X * B) := by
  have hdecomp : Y - X * B = qr_dense_residop X Y + X * (qrSolve X Y - B) := by
    unfold qr_dense_residop
    rw [Matrix.mul_sub]
    abel
  have horth : dotF (qr_dense_residop X Y) (X * (qrSolve X Y - B)) = 0 := by
    rw [dotF_comm, dotF_mul_left, transpose_mul_dense_resid X Y h, dotF_zero_right]
  rw [hdecomp, frobSq_add, horth]
  have hnn := frobSq_nonneg (X * (qrSolve X Y - B))
  linarith

/-- A product through an empty index of predictors is the zero matrix. -/
lemma mul_of_no_columns {n k : ℕ} (X : Matrix (Fin n) (Fin 0) ℚ)
    (B : Matrix (Fin 0) (Fin k) ℚ) : X * B = 0 := by
  ext i j
  simp [Matrix.mul_apply]

/-- Permuting the columns of X before the solve and permuting the
coefficients back yields exactly the unpermuted solve: the ordering
permutation cancels in exact arithmetic. -/
lemma spqrSolve_eq_qrSolve {n p k : ℕ} (sigma : Equiv.Perm (Fin p))
    (X : Matrix (Fin n) (Fin p) ℚ) (Y : Matrix (Fin n) (Fin k) ℚ) :
    spqrSolve sigma X Y = qrSolve X Y := by
  unfold spqrSolve qrSolve
  have h1 : (X.submatrix id sigma)ᵀ * (X.submatrix id sigma) =
      (Xᵀ * X).submatrix sigma sigma := by
    ext i j
    simp [Matrix.mul_apply]
  have h2 : (X.submatrix id sigma)ᵀ * Y = (Xᵀ * Y).submatrix sigma id := by
    ext i j
    simp [Matrix.mul_apply]
  rw [h1, h2, Matrix.det_submatrix_equiv_self, Matrix.adjugate_submatrix_equiv_self,
    Matrix.submatrix_mul_equiv]
  ext i j
  simp [Matrix.submatrix_apply]

/-- The sparse kernel computes the same residual as the dense kernel for
every ordering permutation. -/
lemma sparse_eq_dense {n p k : ℕ} (sigma : Equiv.Perm (Fin p))
    (X : Matrix (Fin n) (Fin p) ℚ) (Y : Matrix (Fin n) (Fin k) ℚ) :
    qr_sparse_residop sigma X Y = qr_dense_residop X Y := by
  unfold qr_sparse_residop qr_dense_residop
  rw [spqrSolve_eq_qrSolve]

/-- On the spec scenario the solve step returns the constant coefficient
2, the mean of the response. -/
lemma qrSolve_one : qrSolve Xone Yone = fun _ _ => 2 := by
  have hA : Xoneᵀ * Xone = fun _ _ => 3 := by
    ext i j
    fin_cases i
    fin_cases j
    simp [Matrix.mul_apply, Fin.sum_univ_three, Xone]
  have hB : Xoneᵀ * Yone = fun _ _ => 6 := by
    ext i j
    fin_cases i
    fin_cases j
    simp [Matrix.mul_apply, Fin.sum_univ_three, Xone, Yone]
    norm_num
  unfold qrSolve
  rw [hA, hB, Matrix.det_fin_one, Matrix.adjugate_fin_one, Matrix.one_mul]
  ext i j
  fin_cases i
  fin_cases j
  simp
  norm_num

/-- The all-ones column has full column rank. -/
lemma fullColRank_Xone : FullColRank Xone := by
  unfold FullColRank
  rw [isUnit_iff_ne_zero, Matrix.det_fin_one]
  simp [Matrix.mul_apply, Fin.sum_univ_three, Xone]

/-- C1: for every full-column-rank design matrix X and response Y, the
dense entry point returns R = Y - X * bhat where bhat is the
least-squares coefficient matrix, the minimizer of the squared 2-norm of
Y - X * B over all B, computed from the QR factorization of X. -/
theorem C1_dense_least_squares {n p k : ℕ} (X : Matrix (Fin n) (Fin p) ℚ)
    (Y : Matrix (Fin n) (Fin k) ℚ) (h : FullColRank X) :
    qr_dense_residop X Y = Y - X * qrSolve X Y ∧
    ∀ B : Matrix (Fin p) (Fin k) ℚ,
      frobSq (Y - X * qrSolve X Y) ≤ frobSq (Y - X * B) :=
  ⟨rfl, fun B => dense_resid_min X Y h B⟩

/-- Witness for C1 at the concrete spec scenario, with the full-rank
hypothesis discharged and the minimization instantiated at B = 0. -/
theorem C1_witness :
    FullColRank Xone ∧
    frobSq (Yone - Xone * qrSolve Xone Yone) ≤
      frobSq (Yone - Xone * (0 : Matrix (Fin 1) (Fin 1) ℚ)) :=
  ⟨fullColRank_Xone, (C1_dense_least_squares Xone Yone fullColRank_Xone).2 0⟩

/-- C2: when X has zero columns, both entry points return the response
unchanged; the fitted value is the zero matrix. -/
theorem C2_no_predictors {n k : ℕ} (X : Matrix (Fin n) (Fin 0) ℚ)
    (Y : Matrix (Fin n) (Fin k) ℚ) :
    qr_dense_residop X Y = Y ∧
    ∀ sigma : Equiv.Perm (Fin 0), qr_sparse_residop sigma X Y = Y := by
  constructor
  · unfold qr_dense_residop
    rw [mul_of_no_columns, sub_zero]
  · intro sigma
    rw [sparse_eq_dense]
    unfold qr_dense_residop
    rw [mul_of_no_columns, sub_zero]

/-- C3: for full-column-rank X the residual returned by the dense entry
point is orthogonal to the column space of X, that is Xt * R = 0, so R
is the projection of Y onto the orthogonal complement of that space; in
the exact-arithmetic embedding the identity is exact. -/
theorem C3_orthogonality {n p k : ℕ} (X : Matrix (Fin n) (Fin p) ℚ)
    (Y : Matrix (Fin n) (Fin k) ℚ) (h : FullColRank X) :
    Xᵀ * qr_dense_residop X Y = 0 :=
  transpose_mul_dense_resid X Y h

/-- Witness for C3 at the concrete spec scenario. -/
theorem C3_witness :
    FullColRank Xone ∧ Xoneᵀ * qr_dense_residop Xone Yone = 0 :=
  ⟨fullColRank_Xone, C3_orthogonality Xone Yone fullColRank_Xone⟩

/-- C4: for full-column-rank X, applying either entry point a second
time to its own residual returns the residual unchanged; in the
exact-arithmetic embedding the idempotence is exact. -/
theorem C4_idempotent {n p k : ℕ} (sigma : Equiv.Perm (Fin p))
    (X : Matrix (Fin n) (Fin p) ℚ) (Y : Matrix (Fin n) (Fin k) ℚ)
    (h : FullColRank X) :
    qr_dense_residop X (qr_dense_residop X Y) = qr_dense_residop X Y ∧
    qr_sparse_residop sigma X (qr_sparse_residop sigma X Y) =
      qr_sparse_residop sigma X Y := by
  refine ⟨dense_resid_idem X Y h, ?_⟩
  simp only [sparse_eq_dense]
  exact dense_resid_idem X Y h

/-- Witness for C4 at the concrete spec scenario with the identity
ordering permutation. -/
theorem C4_witness :
    FullColRank Xone ∧
    qr_dense_residop Xone (qr_dense_residop Xone Yone) =
      qr_dense_residop Xone Yone ∧
    qr_sparse_residop (Equiv.refl (Fin 1)) Xone
        (qr_sparse_residop (Equiv.refl (Fin 1)) Xone Yone) =
      qr_sparse_residop (Equiv.refl (Fin 1)) Xone Yone :=
  ⟨fullColRank_Xone, C4_idempotent (Equiv.refl (Fin 1)) Xone Yone fullColRank_Xone⟩

/-- C6: on the concrete scenario with X the 3 by 1 all-ones column and Y
the column (1, 2, 3), the dense entry point returns the residual
(-1, 0, 1), the solve step returns the coefficient 2 (the mean of Y),
and Xt times the residual is zero. -/
theorem C6_concrete :
    qr_dense_residop Xone Yone = Rone ∧
    qrSolve Xone Yone = (fun _ _ => 2) ∧
    Xoneᵀ * Rone = 0 := by
  have hres : qr_dense_residop Xone Yone = Rone := by
    unfold qr_dense_residop
    rw [qrSolve_one]
    ext i j
    fin_cases i <;> fin_cases j <;>
      simp [Matrix.mul_apply, Fin.sum_univ_one, Xone, Yone, Rone] <;> norm_num
  refine ⟨hres, qrSolve_one, ?_⟩
  ext i j
  fin_cases i
  fin_cases j
  simp [Matrix.mul_apply, Fin.sum_univ_three, Xone, Rone]
  norm_num

/-- C7 counterexample: the kernel does not expose three entry points;
src/resid.cpp exports exactly two symbols, and in particular no dense
single-precision variant exists. -/
theorem C7_counterexample : entryPoints.length ≠ 3 := by decide

/-- C7 amended: the kernel exposes exactly two callable entry points,
the dense double-precision residual and the sparse double-precision
residual; there is no single-precision entry point. -/
theorem C7_two_entry_points :
    entryPoints = ["qr_dense_residop", "qr_sparse_residop"] := rfl

/-- C8 counterexample: natural ordering is not a selectable policy; the
SparseQR template in src/resid.cpp line 21 is instantiated only with
COLAMDOrdering. -/
theorem C8_counterexample : ¬ ("NaturalOrdering" ∈ sparseOrderings) := by decide

/-- C8 amended: the sparse variant hard-codes the fill-reducing COLAMD
ordering as its only policy, and in exact arithmetic the residual is
invariant under the ordering permutation: any two column orderings yield
the same residual. -/
theorem C8_colamd_only_order_invariant :
    sparseOrderings = ["COLAMDOrdering"] ∧
    ∀ (n p k : ℕ) (s1 s2 : Equiv.Perm (Fin p)) (X : Matrix (Fin n) (Fin p) ℚ)
      (Y : Matrix (Fin n) (Fin k) ℚ),
      qr_sparse_residop s1 X Y = qr_sparse_residop s2 X Y := by
  refine ⟨rfl, ?_⟩
  intro n p k s1 s2 X Y
  rw [sparse_eq_dense, sparse_eq_dense]

/-- C10: both entry points are deterministic: two invocations on equal
inputs (and, for the sparse variant, the same ordering permutation)
return equal residual matrices. -/
theorem C10_deterministic {n p k : ℕ} (sigma sigma2 : Equiv.Perm (Fin p))
    (X X2 : Matrix (Fin n) (Fin p) ℚ) (Y Y2 : Matrix (Fin n) (Fin k) ℚ)
    (hX : X = X2) (hY : Y = Y2) (hs : sigma = sigma2) :
    qr_dense_residop X Y = qr_dense_residop X2 Y2 ∧
    qr_sparse_residop sigma X Y = qr_sparse_residop sigma2 X2 Y2 := by
  subst hX
  subst hY
  subst hs
  exact ⟨rfl, rfl⟩

/-- Witness for C10 at the concrete spec scenario. -/
theorem C10_witness :
    Xone = Xone ∧
    qr_dense_residop Xone Yone = qr_dense_residop Xone Yone ∧
    qr_sparse_residop (Equiv.refl (Fin 1)) Xone Yone =
      qr_sparse_residop (Equiv.refl (Fin 1)) Xone Yone :=
  ⟨rfl, C10_deterministic (Equiv.refl (Fin 1)) (Equiv.refl (Fin 1)) Xone Xone
    Yone Yone rfl rfl rfl⟩

end Resid
